import Mathlib

/-!
# fisymup: progress monitor and sync orchestration (`syncer.go`)

A shallow embedding of `syncer.go` and a verification of its documented behaviour.

* Sequential code (`newProgressStats`, `getStats`, `update`, `addLogMessage`, the body of
  the stop handle, the acknowledge loop, `StartSync`) is embedded as pure functions on an
  explicit `progressStats` record.
* The session (caller thread, background goroutine, ticker, stop channel, global log sink)
  is embedded as a guarded step function `step` over `Session`, driven by a schedule of
  `Ev` events.
* `int64` values are only copied, compared with zero, printed and converted to `float64` by
  the program; no integer arithmetic is performed on them, so they are embedded as `Int`.
* `float64(bytes)/1000000` and the verb `%.2f` are embedded exactly: IEEE-754 binary64
  rounding to nearest (ties to even) on rationals given as pairs of natural numbers.
-/

namespace Fisymup

/-! ## Display surface (termui) -/

/-- The termui colours the program uses. -/
inductive Color where
  | ColorBlack
  | ColorRed
  | ColorGreen
deriving DecidableEq, Repr

/-- A termui style: foreground and background colour. -/
structure Style where
  Fg : Color
  Bg : Color
deriving DecidableEq, Repr

/-- The call `ui.NewStyle(fg, bg)`. -/
def NewStyle (fg bg : Color) : Style := ⟨fg, bg⟩

/-! ## The snapshot: `progressStats` -/

/-- The struct `progressStats` (syncer.go 27-35). The four widgets are represented by the
fields the program writes: the `Text` of each paragraph and the `TextStyle` of the status
paragraph (`none` while the program has not set it). -/
structure progressStats where
  bytes : Int
  transfers : Int
  logMessages : List String
  statusText : String
  statusTextStyle : Option Style
  bytesText : String
  transferText : String
  logText : String
deriving DecidableEq, Repr

/-- The constructor `newProgressStats` (syncer.go 37-64). -/
def newProgressStats : progressStats :=
  { bytes := 0
    transfers := 0
    logMessages := []
    statusText := "Waiting for sync process to start..."
    statusTextStyle := none
    bytesText := "0"
    transferText := "0"
    logText := "" }

/-- The method `addLogMessage` (syncer.go 92-97): append, then drop the first element when
the length exceeds 4. -/
def addLogMessage (ps : progressStats) (msg : String) : progressStats :=
  let appended := ps.logMessages ++ [msg]
  if appended.length > 4 then
    { ps with logMessages := appended.drop 1 }
  else
    { ps with logMessages := appended }

/-! ## Formatting (`fmt.Sprintf`, `strings.Join`) -/

/-- The verb `%d` on an `int64`. -/
def fmtInt (i : Int) : String :=
  if i < 0 then "-" ++ Nat.repr i.natAbs else Nat.repr i.natAbs

/-- The quotient `n / d` rounded to the nearest natural number, ties to even. -/
def roundHalfEven (n d : Nat) : Nat :=
  let q := n / d
  let r := n % d
  if 2 * r < d then q
  else if d < 2 * r then q + 1
  else if q % 2 = 0 then q else q + 1

/-- Helper of `ilog2`: binary logarithm by repeated halving. -/
def log2Fuel : Nat → Nat → Nat
  | 0, _ => 0
  | fuel + 1, n => if n < 2 then 0 else log2Fuel fuel (n / 2) + 1

/-- The binary logarithm, rounded down (`0` at `0`). -/
def ilog2 (n : Nat) : Nat := log2Fuel n n

/-- A non-negative finite IEEE-754 binary64 value `mant * 2 ^ exp`; the sign is carried
separately by the caller. -/
structure F64 where
  mant : Nat
  exp : Int
deriving DecidableEq, Repr

/-- The binary64 value nearest to the rational `n / d` (round to nearest, ties to even,
53-bit significand). Exact IEEE-754 rounding for every quotient in the normal range, which
contains every value the program computes from an `int64`. -/
def F64.round (n d : Nat) : F64 :=
  if n = 0 then ⟨0, 0⟩
  else
    let a : Int := (ilog2 n : Int) - (ilog2 d : Int)
    let ge : Bool :=
      if 0 ≤ a then decide (d * 2 ^ a.toNat ≤ n) else decide (d ≤ n * 2 ^ (-a).toNat)
    let l : Int := if ge then a else a - 1
    let e : Int := l - 52
    if 0 ≤ e then ⟨roundHalfEven n (d * 2 ^ e.toNat), e⟩
    else ⟨roundHalfEven (n * 2 ^ (-e).toNat) d, e⟩

/-- The conversion `float64(n)` of a non-negative integer. -/
def F64.ofNat (n : Nat) : F64 := F64.round n 1

/-- The binary64 division `x / k` by a positive integer constant that is itself a binary64
value (here `1000000`). -/
def F64.divNat (x : F64) (k : Nat) : F64 :=
  if 0 ≤ x.exp then F64.round (x.mant * 2 ^ x.exp.toNat) k
  else F64.round x.mant (k * 2 ^ (-x.exp).toNat)

/-- The value `x * 100` rounded to the nearest integer, ties to even: the digits that
`%.2f` prints (Go converts the binary value to decimal exactly, then rounds half to even). -/
def F64.hundredths (x : F64) : Nat :=
  if 0 ≤ x.exp then x.mant * 2 ^ x.exp.toNat * 100
  else roundHalfEven (x.mant * 100) (2 ^ (-x.exp).toNat)

/-- Two decimal digits, zero padded. -/
def pad2 (n : Nat) : String := if n < 10 then "0" ++ Nat.repr n else Nat.repr n

/-- The verb `%.2f` on a binary64 value with sign `neg` and magnitude `x`. -/
def fmtF2 (neg : Bool) (x : F64) : String :=
  let c := x.hundredths
  (if neg then "-" else "") ++ Nat.repr (c / 100) ++ "." ++ pad2 (c % 100)

/-- The verb `%-6s` generalised to width `w`: left-justified, padded with blanks on the
right up to `w` characters, never truncated. -/
def padRight (w : Nat) (s : String) : String :=
  s ++ String.mk (List.replicate (w - s.length) ' ')

/-! ## The stats source (`accounting.Stats`) and the poll (`update`) -/

/-- The values the external stats source reports: `GetBytes()`, `GetTransfers()`,
`HadFatalError()`. -/
structure AccountingStats where
  GetBytes : Int
  GetTransfers : Int
  HadFatalError : Bool
deriving DecidableEq, Repr

/-- The method `getStats` (syncer.go 66-71). -/
def getStats (Stats : AccountingStats) (ps : progressStats) : progressStats :=
  { ps with bytes := Stats.GetBytes, transfers := Stats.GetTransfers }

/-- The expression `fmt.Sprintf("%.2f MB", float64(bytes)/1000000)`. -/
def sprintfMB (bytes : Int) : String :=
  fmtF2 (decide (bytes < 0)) ((F64.ofNat bytes.natAbs).divNat 1000000) ++ " MB"

/-- The method `updateBytes` (syncer.go 73-75). -/
def updateBytes (ps : progressStats) : progressStats :=
  { ps with bytesText := sprintfMB ps.bytes }

/-- The method `updateTransfers` (syncer.go 77-79). -/
def updateTransfers (ps : progressStats) : progressStats :=
  { ps with transferText := fmtInt ps.transfers ++ " files tranferred" }

/-- The method `updateLog` (syncer.go 81-83). -/
def updateLog (ps : progressStats) : progressStats :=
  { ps with logText := String.intercalate "\n" ps.logMessages }

/-- The method `update` (syncer.go 85-90). -/
def update (Stats : AccountingStats) (ps : progressStats) : progressStats :=
  updateLog (updateTransfers (updateBytes (getStats Stats ps)))

/-! ## The intercepting log sink (syncer.go 150-152) -/

/-- The calendar fields of a `time.Time` that the layout `logTimeFormat` prints. -/
structure Time where
  Year : Nat
  Month : Nat
  Day : Nat
  Hour : Nat
  Minute : Nat
  Second : Nat
deriving DecidableEq, Repr

/-- A decimal number padded with zeros on the left to at least `w` digits. -/
def zeroPad (w n : Nat) : String :=
  String.mk (List.replicate (w - (Nat.repr n).length) '0') ++ Nat.repr n

/-- The constant `logTimeFormat` (syncer.go 103). -/
def logTimeFormat : String := "2006-01-02 15:04:05"

/-- The layout interpreter of `time.Format`, for the layout elements that occur in
`logTimeFormat`: `2006` is the four-digit year, `01` the two-digit month, `02` the two-digit
day, `15` the two-digit hour (24 h), `04` the minute, `05` the second; every other
character is copied. -/
def formatLayout (t : Time) : List Char → List Char
  | '2' :: '0' :: '0' :: '6' :: rest => (zeroPad 4 t.Year).data ++ formatLayout t rest
  | '0' :: '1' :: rest => (zeroPad 2 t.Month).data ++ formatLayout t rest
  | '0' :: '2' :: rest => (zeroPad 2 t.Day).data ++ formatLayout t rest
  | '1' :: '5' :: rest => (zeroPad 2 t.Hour).data ++ formatLayout t rest
  | '0' :: '4' :: rest => (zeroPad 2 t.Minute).data ++ formatLayout t rest
  | '0' :: '5' :: rest => (zeroPad 2 t.Second).data ++ formatLayout t rest
  | c :: rest => c :: formatLayout t rest
  | [] => []

/-- The method `t.Format(layout)`. -/
def Time.Format (t : Time) (layout : String) : String :=
  String.mk (formatLayout t layout.data)

/-- The expression `fmt.Sprintf("%s %-6s: %s", now.Format(logTimeFormat), level, text)`,
where `now` is the value of `time.Now()` and `level` the text of the log level. -/
def sprintfLogLine (now : Time) (level text : String) : String :=
  now.Format logTimeFormat ++ " " ++ padRight 6 level ++ ": " ++ text

/-- The closure installed as `fs.LogPrint` (syncer.go 150-152). -/
def interceptLogPrint (stats : progressStats) (now : Time) (level text : String) :
    progressStats :=
  addLogMessage stats (sprintfLogLine now level text)

/-! ## Guard discipline: accesses to the snapshot and to `progressMu` -/

/-- The snapshot fields shared between execution contexts. -/
inductive Field where
  | bytes
  | transfers
  | logMessages
deriving DecidableEq, Repr

/-- One step of a method as seen by the guard: a `progressMu` operation or an access to a
snapshot field. -/
inductive Access where
  | Lock
  | Unlock
  | load (f : Field)
  | store (f : Field)
deriving DecidableEq, Repr

/-- The accesses of `getStats` (syncer.go 66-71), in order; the deferred `Unlock` runs
last. -/
def getStatsAccesses : List Access :=
  [Access.Lock, Access.store Field.bytes, Access.store Field.transfers, Access.Unlock]

/-- The accesses of `addLogMessage` (syncer.go 92-97), in order: line 93 loads and stores
the slice, line 94 loads it, line 95 (when taken) loads and stores it. -/
def addLogMessageAccesses (ps : progressStats) (msg : String) : List Access :=
  [Access.load Field.logMessages, Access.store Field.logMessages,
    Access.load Field.logMessages] ++
  (if (ps.logMessages ++ [msg]).length > 4 then
    [Access.load Field.logMessages, Access.store Field.logMessages]
  else [])

/-- The accesses of one call of the installed log sink (syncer.go 150-152): the closure
formats the line and calls `addLogMessage`, nothing else. -/
def interceptLogPrintAccesses (ps : progressStats) (now : Time) (level text : String) :
    List Access :=
  addLogMessageAccesses ps (sprintfLogLine now level text)

/-- Whether every store in the sequence happens while the guard is held; `held` is the
state of the guard before the sequence. -/
def storesGuarded : Bool → List Access → Bool
  | _, [] => true
  | _, Access.Lock :: rest => storesGuarded true rest
  | _, Access.Unlock :: rest => storesGuarded false rest
  | held, Access.load _ :: rest => storesGuarded held rest
  | held, Access.store _ :: rest => held && storesGuarded held rest

/-! ## The stop handle: status selection (syncer.go 179-191) -/

/-- Status text written at syncer.go 181. -/
def failureText : String :=
  "Something went wrong. Check the log below and then press q to return to the menu"

/-- Status text written at syncer.go 185. -/
def successText : String :=
  "Download done. Press q to return to the menu"

/-- Status text written at syncer.go 187. -/
def noopText : String :=
  "All files up to date, nothing was downloaded. Press q to return to the menu"

/-- Lines 179-191 of the stop handle: `newstyle` starts as black on green; the status text
is chosen from `accounting.Stats.HadFatalError()` and the snapshot field `stats.bytes`, the
fatal branch also replacing `newstyle` by black on red; line 191 stores `newstyle`. -/
def stopStatus (hadFatalError : Bool) (stats : progressStats) : progressStats :=
  let newstyle := NewStyle Color.ColorBlack Color.ColorGreen
  let chosen : String × Style :=
    if hadFatalError then
      (failureText, NewStyle Color.ColorBlack Color.ColorRed)
    else if stats.bytes > 0 then
      (successText, newstyle)
    else
      (noopText, newstyle)
  { stats with statusText := chosen.1, statusTextStyle := some chosen.2 }

/-! ## The acknowledge loop (syncer.go 195-202) -/

/-- The termui event types. -/
inductive EventType where
  | KeyboardEvent
  | MouseEvent
  | ResizeEvent
deriving DecidableEq, Repr

/-- A termui event: the fields `Type` and `ID` read by the loop. -/
structure Event where
  Typ : EventType
  ID : String
deriving DecidableEq, Repr

/-- The loop `for e := range ui.PollEvents()` of the stop handle, run on the list of events
the channel delivers. The result is the number of events received when the handle returns;
`none` when the list runs out before the loop returns (the loop is still blocked on the
channel). -/
def ackWait : List Event → Option Nat
  | [] => none
  | e :: rest =>
    if e.Typ = EventType.KeyboardEvent then
      if e.ID = "q" then some 1
      else (ackWait rest).map (· + 1)
    else (ackWait rest).map (· + 1)

/-! ## `StartSync` (syncer.go 209-226) -/

/-- The observable actions of `StartSync`, in program order. -/
inductive SyncAction (φ ε : Type) where
  /-- The call `log.Fatal(err)`: the process ends. -/
  | logFatal (err : ε)
  /-- The call `progressMonitor()`. -/
  | progressMonitor
  /-- The call `rsync.Sync(fdst, fsrc, false)`, arguments in call order. -/
  | Sync (first second : φ)
  /-- The call `stopStats()`. -/
  | stopStats
deriving DecidableEq, Repr

/-- The function `StartSync`. `NewFs` is `fs.NewFs`, returning a handle and an error value
(`none` is Go's `nil` error). Both paths are resolved first; the destination error is
checked before the source error; `log.Fatal` ends the process. -/
def StartSync {φ ε : Type} (NewFs : String → φ × Option ε) (srcpath dstpath : String) :
    List (SyncAction φ ε) :=
  let (fsrc, errsrc) := NewFs srcpath
  let (fdst, errdst) := NewFs dstpath
  match errdst with
  | some e => [SyncAction.logFatal e]
  | none =>
    match errsrc with
    | some e => [SyncAction.logFatal e]
    | none => [SyncAction.progressMonitor, SyncAction.Sync fdst fsrc, SyncAction.stopStats]

/-! ## The monitor session (`progressMonitor`, syncer.go 112-204) -/

/-- What `ui.Render(grid)` flushes to the terminal: the text of the four widgets and the
style of the status text. -/
structure Frame where
  status : String
  statusStyle : Option Style
  bytes : String
  transfers : String
  log : String
deriving DecidableEq, Repr

/-- The call `ui.Render(grid)`: the frame shown for the current widget contents. -/
def Render (ps : progressStats) : Frame :=
  { status := ps.statusText
    statusStyle := ps.statusTextStyle
    bytes := ps.bytesText
    transfers := ps.transferText
    log := ps.logText }

/-- A value of the global `fs.LogPrint`: a sink `s` that was installed by somebody else, or
the closure of syncer.go 150-152. -/
inductive LogSink (σ : Type) where
  | external (s : σ)
  | intercept
deriving DecidableEq, Repr

/-- The state of one monitor session together with the process-wide state it touches.

* `Stats`, `LogPrint`: the globals `accounting.Stats` and `fs.LogPrint`.
* `stats`, `oldLogPrint`, `stopClosed`: the locals `stats`, `oldLogPrint` and `stopStats`
  (whether the channel is closed) captured by the goroutine and the stop handle.
* `started`: the goroutine has run its prologue (lines 158-162) and owns a ticker.
* `tickPending`: the one-slot channel `ticker.C` holds a tick.
* `tickerStopped`: `ticker.Stop()` has run.
* `done`: the goroutine has returned (`wg.Done()` has run, `wg.Wait()` no longer blocks).
* `screen`: the last frame flushed by `ui.Render`.
* `reads`: history variable, the values returned by the stats source at each `getStats`
  of this session, oldest first. -/
structure Session (σ : Type) where
  Stats : AccountingStats
  LogPrint : LogSink σ
  stats : progressStats
  oldLogPrint : LogSink σ
  stopClosed : Bool
  started : Bool
  tickPending : Bool
  tickerStopped : Bool
  done : Bool
  screen : Frame
  reads : List (Int × Int)
deriving DecidableEq, Repr

/-- The body of `progressMonitor` up to the `return` of the stop handle (lines 113-156):
fresh snapshot, first render, a fresh open stop channel, and the log sink replaced by the
intercepting closure unless `fslog.Redirected()` holds. -/
def progressMonitor {σ : Type} (Stats : AccountingStats) (LogPrint : LogSink σ)
    (Redirected : Bool) : Session σ :=
  let stats := newProgressStats
  { Stats := Stats
    LogPrint := if !Redirected then LogSink.intercept else LogPrint
    stats := stats
    oldLogPrint := LogPrint
    stopClosed := false
    started := false
    tickPending := false
    tickerStopped := false
    done := false
    screen := Render stats
    reads := [] }

/-- The events of a session; a schedule is a list of them.

* `jobProgress b t f`: the transfer job changes the stats source to bytes `b`, transfers
  `t`, fatal flag `f`.
* `jobLog now level text`: somebody calls `fs.LogPrint(level, text)`; `now` is the value of
  `time.Now()` at that moment, `level` the text of the level.
* `goStart`: the goroutine runs its prologue (lines 158-162).
* `timerFire`: the ticker sends on `ticker.C` (dropped when the slot is full).
* `selectTick`: the `select` takes `case <-ticker.C` (lines 165-167).
* `selectStop`: the `select` takes `case <-stopStats` (lines 168-174).
* `stopHandle`: the caller runs the stop handle up to `close(stopStats)` (lines 179-193). -/
inductive Ev where
  | jobProgress (bytes transfers : Int) (fatal : Bool)
  | jobLog (now : Time) (level text : String)
  | goStart
  | timerFire
  | selectTick
  | selectStop
  | stopHandle
deriving DecidableEq, Repr

/-- The call `stats.update()` made by the goroutine, recording the values read in the
history variable. -/
def poll {σ : Type} (s : Session σ) : Session σ :=
  { s with
    stats := update s.Stats s.stats
    reads := s.reads ++ [(s.Stats.GetBytes, s.Stats.GetTransfers)] }

/-- The call `ui.Render(grid)` made by the goroutine. -/
def flush {σ : Type} (s : Session σ) : Session σ :=
  { s with screen := Render s.stats }

/-- One event of the session; `none` when the event cannot happen in state `s`. A `select`
case can be taken exactly when its channel is ready; when both are ready either may be
taken, as in Go. -/
def step {σ : Type} (s : Session σ) : Ev → Option (Session σ)
  | Ev.jobProgress b t f =>
    some { s with Stats := { GetBytes := b, GetTransfers := t, HadFatalError := f } }
  | Ev.jobLog now level text =>
    match s.LogPrint with
    | LogSink.intercept =>
      some { s with stats := interceptLogPrint s.stats now level text }
    | LogSink.external _ => some s
  | Ev.goStart =>
    if s.started then none
    else
      some { s with
        started := true
        stats := { s.stats with statusText := "Downloading from source..." } }
  | Ev.timerFire =>
    if s.started && !s.tickerStopped then some { s with tickPending := true } else none
  | Ev.selectTick =>
    if s.started && !s.done && s.tickPending then
      some (flush (poll { s with tickPending := false }))
    else none
  | Ev.selectStop =>
    if s.started && !s.done && s.stopClosed then
      let s1 := poll { s with tickerStopped := true }
      let s2 := { s1 with LogPrint := s1.oldLogPrint }
      some { flush s2 with done := true }
    else none
  | Ev.stopHandle =>
    if s.stopClosed then none
    else
      some { s with
        stats := stopStatus s.Stats.HadFatalError s.stats
        stopClosed := true }

/-- Run a schedule from state `s`; `none` when some event of it cannot happen. -/
def run {σ : Type} (s : Session σ) : List Ev → Option (Session σ)
  | [] => some s
  | e :: rest =>
    match step s e with
    | none => none
    | some s1 => run s1 rest

/-! ## Theorems -/

/-! ### The stop handle's choice of outcome -/

/-- The three status texts are pairwise different. -/
theorem statusTexts_distinct :
    failureText ≠ successText ∧ failureText ≠ noopText ∧ successText ≠ noopText := by
  decide

/-- C1: for either value of the fatal flag and every (non-negative) byte count held in the
snapshot, lines 179-191 of the stop handle write the failure text in black on red exactly
when the flag is set, the success text in black on green exactly when the flag is clear and
the count is positive, and the nothing-to-do text in black on green exactly when the flag
is clear and the count is zero; exactly one of the three texts is written. -/
theorem stopStatus_outcome (fatal : Bool) (stats : progressStats) (hb : 0 ≤ stats.bytes) :
    ((stopStatus fatal stats).statusText = failureText ↔ fatal = true) ∧
    ((stopStatus fatal stats).statusText = successText ↔ (fatal = false ∧ 0 < stats.bytes)) ∧
    ((stopStatus fatal stats).statusText = noopText ↔ (fatal = false ∧ stats.bytes = 0)) ∧
    ((stopStatus fatal stats).statusTextStyle =
      some (if fatal then NewStyle Color.ColorBlack Color.ColorRed
        else NewStyle Color.ColorBlack Color.ColorGreen)) ∧
    ((stopStatus fatal stats).statusText = failureText ∨
      (stopStatus fatal stats).statusText = successText ∨
      (stopStatus fatal stats).statusText = noopText) ∧
    ¬ ((stopStatus fatal stats).statusText = failureText ∧
      (stopStatus fatal stats).statusText = successText) ∧
    ¬ ((stopStatus fatal stats).statusText = failureText ∧
      (stopStatus fatal stats).statusText = noopText) ∧
    ¬ ((stopStatus fatal stats).statusText = successText ∧
      (stopStatus fatal stats).statusText = noopText) := by
  obtain ⟨h1, h2, h3⟩ := statusTexts_distinct
  cases fatal
  · by_cases hpos : stats.bytes > 0
    · have hne : stats.bytes ≠ 0 := by omega
      simp [stopStatus, hpos, hne, h1.symm, h3]
    · have hz : stats.bytes = 0 := by omega
      simp [stopStatus, hz, h2.symm, h3.symm]
  · simp [stopStatus, h1, h2]

/-- Witness of C1: a clear flag and 5,000,000 bytes give the success text in black on
green. -/
theorem stopStatus_outcome_witness :
    (0 : Int) ≤ ({ newProgressStats with bytes := 5000000 } : progressStats).bytes ∧
    (stopStatus false { newProgressStats with bytes := 5000000 }).statusText = successText ∧
    (stopStatus false { newProgressStats with bytes := 5000000 }).statusTextStyle =
      some (NewStyle Color.ColorBlack Color.ColorGreen) :=
  ⟨by decide,
    (stopStatus_outcome false { newProgressStats with bytes := 5000000 }
      (by decide)).2.1.mpr ⟨rfl, by decide⟩,
    (stopStatus_outcome false { newProgressStats with bytes := 5000000 } (by decide)).2.2.2.1⟩

/-! ### The log ring -/

/-- One append in closed form: the ring afterwards is the old ring with the line appended,
cut to its last four entries, provided the old ring had at most four. -/
theorem addLogMessage_ring (ps : progressStats) (msg : String)
    (h : ps.logMessages.length ≤ 4) :
    (addLogMessage ps msg).logMessages =
      (ps.logMessages ++ [msg]).drop ((ps.logMessages ++ [msg]).length - 4) := by
  unfold addLogMessage
  by_cases hlen : (ps.logMessages ++ [msg]).length > 4
  · have h5 : (ps.logMessages ++ [msg]).length - 4 = 1 := by
      simp only [List.length_append, List.length_singleton] at hlen ⊢
      omega
    simp only [hlen, if_true, h5]
  · have h0 : (ps.logMessages ++ [msg]).length - 4 = 0 := by
      simp only [List.length_append, List.length_singleton] at hlen ⊢
      omega
    simp only [hlen, if_false, h0, List.drop_zero]

/-- The ring never grows beyond four entries once it has at most four. -/
theorem addLogMessage_length_le (ps : progressStats) (msg : String)
    (h : ps.logMessages.length ≤ 4) : (addLogMessage ps msg).logMessages.length ≤ 4 := by
  rw [addLogMessage_ring ps msg h]
  simp only [List.length_drop, List.length_append, List.length_singleton]
  omega

/-- Appending a list of lines to a ring of at most four entries leaves the last four of
the concatenation. -/
theorem foldl_addLogMessage_ring (lines : List String) :
    ∀ ps : progressStats, ps.logMessages.length ≤ 4 →
      (lines.foldl addLogMessage ps).logMessages =
        (ps.logMessages ++ lines).drop ((ps.logMessages ++ lines).length - 4) := by
  induction lines with
  | nil =>
    intro ps h
    have h0 : ps.logMessages.length - 4 = 0 := by omega
    simp [h0]
  | cons l rest ih =>
    intro ps h
    rw [List.foldl_cons, ih (addLogMessage ps l) (addLogMessage_length_le ps l h),
      addLogMessage_ring ps l h]
    have hk : (ps.logMessages ++ [l]).length - 4 ≤ (ps.logMessages ++ [l]).length := by omega
    rw [← List.drop_append_of_le_length hk, List.drop_drop]
    have hass : ps.logMessages ++ [l] ++ rest = ps.logMessages ++ l :: rest := by simp
    rw [hass]
    congr 1
    simp only [List.length_drop, List.length_append, List.length_cons, List.length_nil]
    omega

/-- C3: after appending any sequence of lines with `addLogMessage` to a fresh
`progressStats`, the log ring is exactly the last `min n 4` lines in insertion order; its
length is `min n 4`, hence at most 4; and appending a fifth line to a ring of four drops
exactly the oldest line and keeps the other four in order. -/
theorem logRing_last_four (lines : List String) :
    (lines.foldl addLogMessage newProgressStats).logMessages =
      lines.drop (lines.length - min lines.length 4) ∧
    (lines.foldl addLogMessage newProgressStats).logMessages.length = min lines.length 4 ∧
    (lines.foldl addLogMessage newProgressStats).logMessages.length ≤ 4 ∧
    (∀ (ps : progressStats) (a b c d e : String),
      (addLogMessage { ps with logMessages := [a, b, c, d] } e).logMessages = [b, c, d, e]) := by
  have hring := foldl_addLogMessage_ring lines newProgressStats (by decide)
  have hnil : newProgressStats.logMessages = [] := rfl
  rw [hnil, List.nil_append] at hring
  have hidx : lines.length - min lines.length 4 = lines.length - 4 := by omega
  refine ⟨by rw [hring, hidx], ?_, ?_, ?_⟩
  · rw [hring, List.length_drop]; omega
  · rw [hring, List.length_drop]; omega
  · intro ps a b c d e
    simp [addLogMessage]

/-! ### The acknowledge loop -/

/-- The loop does not return on a list without a keyboard event of ID `q`. -/
theorem ackWait_none (evs : List Event)
    (h : ∀ x ∈ evs, ¬ (x.Typ = EventType.KeyboardEvent ∧ x.ID = "q")) :
    ackWait evs = none := by
  induction evs with
  | nil => rfl
  | cons x rest ih =>
    have hx := h x (List.mem_cons_self x rest)
    have hrest := ih (fun y hy => h y (List.mem_cons_of_mem x hy))
    unfold ackWait
    by_cases ht : x.Typ = EventType.KeyboardEvent
    · have hid : ¬ x.ID = "q" := fun hid => hx ⟨ht, hid⟩
      simp [ht, hid, hrest]
    · simp [ht, hrest]

/-- C6: on every event sequence the acknowledge loop returns exactly at the first keyboard
event whose ID is `q`: all events before it (keyboard events with another ID, events of
another type with any ID) are skipped, the loop has not returned on them, and it returns
with that event as the last one received. On the keys x, a, q it returns at the third. -/
theorem ackWait_first_q (before after : List Event)
    (h : ∀ x ∈ before, ¬ (x.Typ = EventType.KeyboardEvent ∧ x.ID = "q")) :
    ackWait (before ++ { Typ := EventType.KeyboardEvent, ID := "q" } :: after) =
      some (before.length + 1) ∧
    ackWait before = none ∧
    ackWait [{ Typ := EventType.KeyboardEvent, ID := "x" },
      { Typ := EventType.KeyboardEvent, ID := "a" },
      { Typ := EventType.KeyboardEvent, ID := "q" }] = some 3 := by
  refine ⟨?_, ackWait_none before h, by decide⟩
  induction before with
  | nil => simp [ackWait]
  | cons x rest ih =>
    have hx := h x (List.mem_cons_self x rest)
    have hrest := ih (fun y hy => h y (List.mem_cons_of_mem x hy))
    rw [List.cons_append]
    unfold ackWait
    by_cases ht : x.Typ = EventType.KeyboardEvent
    · have hid : ¬ x.ID = "q" := fun hid => hx ⟨ht, hid⟩
      simp [ht, hid, hrest]
    · simp [ht, hrest]

/-- Witness of C6: a mouse event with ID `q` and two other keys do not end the wait; the
keyboard event `q` after them does, and later events are not consumed. -/
theorem ackWait_first_q_witness :
    ackWait [{ Typ := EventType.MouseEvent, ID := "q" },
      { Typ := EventType.KeyboardEvent, ID := "x" },
      { Typ := EventType.ResizeEvent, ID := "a" },
      { Typ := EventType.KeyboardEvent, ID := "q" },
      { Typ := EventType.KeyboardEvent, ID := "q" }] = some 4 :=
  (ackWait_first_q
    [{ Typ := EventType.MouseEvent, ID := "q" },
      { Typ := EventType.KeyboardEvent, ID := "x" },
      { Typ := EventType.ResizeEvent, ID := "a" }]
    [{ Typ := EventType.KeyboardEvent, ID := "q" }]
    (by decide)).1

/-! ### `StartSync` -/

/-- C7: `StartSync` starts the monitor and invokes the transfer job exactly when both
locators resolve; when either resolution fails its whole behaviour is one fatal exit, so
neither the monitor nor the job is started; when both resolve its behaviour is: start the
monitor, invoke the job once with the destination handle first and the source handle
second, call the stop handle. -/
theorem StartSync_spec {φ ε : Type} (NewFs : String → φ × Option ε)
    (srcpath dstpath : String) :
    (SyncAction.progressMonitor ∈ StartSync NewFs srcpath dstpath ↔
      ((NewFs srcpath).2 = none ∧ (NewFs dstpath).2 = none)) ∧
    ((∃ a b, SyncAction.Sync a b ∈ StartSync NewFs srcpath dstpath) ↔
      ((NewFs srcpath).2 = none ∧ (NewFs dstpath).2 = none)) ∧
    (¬ ((NewFs srcpath).2 = none ∧ (NewFs dstpath).2 = none) →
      ∃ e, StartSync NewFs srcpath dstpath = [SyncAction.logFatal e]) ∧
    (((NewFs srcpath).2 = none ∧ (NewFs dstpath).2 = none) →
      StartSync NewFs srcpath dstpath =
        [SyncAction.progressMonitor,
          SyncAction.Sync (NewFs dstpath).1 (NewFs srcpath).1,
          SyncAction.stopStats]) := by
  unfold StartSync
  rcases hs : NewFs srcpath with ⟨fsrc, errsrc⟩
  rcases hd : NewFs dstpath with ⟨fdst, errdst⟩
  cases errsrc <;> cases errdst <;> simp

/-- Witness of C7: with a resolver that fails exactly on the empty locator, two good
locators give the three actions in order, and a bad source gives only the fatal exit. -/
theorem StartSync_spec_witness :
    StartSync (fun p => (p, if p = "" then some "bad locator" else none)) "remote:" "/local" =
      [SyncAction.progressMonitor, SyncAction.Sync "/local" "remote:", SyncAction.stopStats] ∧
    (∃ e, StartSync (fun p => (p, if p = "" then some "bad locator" else none)) "" "/local" =
      [SyncAction.logFatal e]) :=
  ⟨(StartSync_spec (fun p => (p, if p = "" then some "bad locator" else none))
      "remote:" "/local").2.2.2 (by decide),
    (StartSync_spec (fun p => (p, if p = "" then some "bad locator" else none))
      "" "/local").2.2.1 (by decide)⟩

/-! ### Accuracy of the binary64 model -/

/-- The rounded quotient is within half a unit of the exact quotient. -/
theorem roundHalfEven_spec (n d : Nat) (hd : 0 < d) :
    2 * (roundHalfEven n d * d) ≤ 2 * n + d ∧ 2 * n ≤ 2 * (roundHalfEven n d * d) + d := by
  have hdm := Nat.div_add_mod n d
  have hmod := Nat.mod_lt n hd
  have hmul : (n / d + 1) * d = d * (n / d) + d := by ring
  have hmul0 : n / d * d = d * (n / d) := by ring
  unfold roundHalfEven
  simp only
  split
  · rw [hmul0]; omega
  · split
    · rw [hmul]; omega
    · split
      · rw [hmul0]; omega
      · rw [hmul]; omega

/-- Rounding a quotient by one changes nothing. -/
theorem roundHalfEven_one (n : Nat) : roundHalfEven n 1 = n := by
  simp [roundHalfEven, Nat.mod_one]

/-- With enough fuel the halving loop brackets its argument between two powers of two. -/
theorem log2Fuel_spec : ∀ fuel n : Nat, 0 < n → n ≤ fuel →
    2 ^ log2Fuel fuel n ≤ n ∧ n < 2 ^ (log2Fuel fuel n + 1) := by
  intro fuel
  induction fuel with
  | zero => intro n h1 h2; omega
  | succ f ih =>
    intro n h1 h2
    unfold log2Fuel
    by_cases hn : n < 2
    · simp only [hn, if_true]
      omega
    · simp only [hn, if_false]
      have h := ih (n / 2) (by omega) (by omega)
      rw [pow_succ, pow_succ]
      omega

/-- The binary logarithm brackets its argument between two powers of two. -/
theorem ilog2_spec (n : Nat) (h : 0 < n) : 2 ^ ilog2 n ≤ n ∧ n < 2 ^ (ilog2 n + 1) :=
  log2Fuel_spec n n h (le_refl n)


/-- The result of `F64.round` once its binary exponent `l` is known to be below 52. -/
theorem F64.round_of_exponent (n d : Nat) (hn : 0 < n) (l : Int) (hl : l < 52)
    (h : (if (if 0 ≤ (ilog2 n : Int) - (ilog2 d : Int)
          then decide (d * 2 ^ ((ilog2 n : Int) - (ilog2 d : Int)).toNat ≤ n)
          else decide (d ≤ n * 2 ^ (-((ilog2 n : Int) - (ilog2 d : Int))).toNat)) = true
        then (ilog2 n : Int) - (ilog2 d : Int)
        else (ilog2 n : Int) - (ilog2 d : Int) - 1) = l) :
    F64.round n d = ⟨roundHalfEven (n * 2 ^ (52 - l).toNat) d, -((52 - l).toNat : Int)⟩ := by
  unfold F64.round
  rw [if_neg (Nat.pos_iff_ne_zero.mp hn)]
  simp only [h]
  have he : ¬ (0 ≤ l - 52) := by omega
  rw [if_neg he]
  have h1 : (-(l - 52)).toNat = (52 - l).toNat := by omega
  have h2 : l - 52 = -((52 - l).toNat : Int) := by omega
  rw [h1, h2]

/-- Rounding a positive quotient below `2 ^ 52`: the result has a negative exponent `-k`,
its significand is the rounded quotient scaled by `2 ^ k`, and the scaled quotient is at
least `2 ^ 52` (the significand is normalised). -/
theorem F64.round_small (n d : Nat) (hn : 0 < n) (hd : 0 < d) (hlt : n < d * 2 ^ 52) :
    ∃ k : Nat, F64.round n d = ⟨roundHalfEven (n * 2 ^ k) d, -(k : Int)⟩ ∧ 0 < k ∧
      d * 2 ^ 52 ≤ n * 2 ^ k := by
  obtain ⟨hA1, hA2⟩ := ilog2_spec n hn
  obtain ⟨hB1, hB2⟩ := ilog2_spec d hd
  have hAB : ilog2 n < ilog2 d + 53 := by
    have h1 : 2 ^ ilog2 n < 2 ^ (ilog2 d + 53) := by
      calc 2 ^ ilog2 n ≤ n := hA1
        _ < d * 2 ^ 52 := hlt
        _ < 2 ^ (ilog2 d + 1) * 2 ^ 52 := Nat.mul_lt_mul_of_pos_right hB2 (by positivity)
        _ = 2 ^ (ilog2 d + 53) := by rw [← pow_add]
    exact (Nat.pow_lt_pow_iff_right (by norm_num)).mp h1
  by_cases hab : ilog2 d ≤ ilog2 n
  · have ha : (0 : Int) ≤ (ilog2 n : Int) - (ilog2 d : Int) := by omega
    have hat : ((ilog2 n : Int) - (ilog2 d : Int)).toNat = ilog2 n - ilog2 d := by omega
    by_cases hge : d * 2 ^ (ilog2 n - ilog2 d) ≤ n
    · have hl52 : ilog2 n - ilog2 d < 52 := by
        have h1 : d * 2 ^ (ilog2 n - ilog2 d) < d * 2 ^ 52 := lt_of_le_of_lt hge hlt
        have h2 : 2 ^ (ilog2 n - ilog2 d) < 2 ^ 52 := Nat.lt_of_mul_lt_mul_left h1
        exact (Nat.pow_lt_pow_iff_right (by norm_num)).mp h2
      refine ⟨52 - (ilog2 n - ilog2 d), ?_, by omega, ?_⟩
      · have h := F64.round_of_exponent n d hn ((ilog2 n : Int) - (ilog2 d : Int)) (by omega)
          (by simp only [ha, if_true, hat, hge, decide_True])
        rw [h]
        have hk : (52 - ((ilog2 n : Int) - (ilog2 d : Int))).toNat
            = 52 - (ilog2 n - ilog2 d) := by omega
        rw [hk]
      · calc d * 2 ^ 52 = d * 2 ^ (ilog2 n - ilog2 d) * 2 ^ (52 - (ilog2 n - ilog2 d)) := by
              rw [mul_assoc, ← pow_add]
              congr 2
              omega
          _ ≤ n * 2 ^ (52 - (ilog2 n - ilog2 d)) := Nat.mul_le_mul_right _ hge
    · refine ⟨53 - (ilog2 n - ilog2 d), ?_, by omega, ?_⟩
      · have h := F64.round_of_exponent n d hn ((ilog2 n : Int) - (ilog2 d : Int) - 1)
          (by omega) (by simp only [ha, if_true, hat, hge, decide_False]; simp)
        rw [h]
        have hk : (52 - ((ilog2 n : Int) - (ilog2 d : Int) - 1)).toNat
            = 53 - (ilog2 n - ilog2 d) := by omega
        rw [hk]
      · have h1 : d * 2 ^ 52 ≤ 2 ^ (ilog2 d + 1) * 2 ^ 52 :=
          Nat.mul_le_mul_right _ (le_of_lt hB2)
        have h2 : 2 ^ (ilog2 d + 1) * 2 ^ 52
            = 2 ^ ilog2 n * 2 ^ (53 - (ilog2 n - ilog2 d)) := by
          rw [← pow_add, ← pow_add]
          congr 1
          omega
        calc d * 2 ^ 52 ≤ 2 ^ ilog2 n * 2 ^ (53 - (ilog2 n - ilog2 d)) := h2 ▸ h1
          _ ≤ n * 2 ^ (53 - (ilog2 n - ilog2 d)) := Nat.mul_le_mul_right _ hA1
  · have ha : ¬ ((0 : Int) ≤ (ilog2 n : Int) - (ilog2 d : Int)) := by omega
    have hat : (-((ilog2 n : Int) - (ilog2 d : Int))).toNat = ilog2 d - ilog2 n := by omega
    by_cases hge : d ≤ n * 2 ^ (ilog2 d - ilog2 n)
    · refine ⟨52 + (ilog2 d - ilog2 n), ?_, by omega, ?_⟩
      · have h := F64.round_of_exponent n d hn ((ilog2 n : Int) - (ilog2 d : Int)) (by omega)
          (by simp only [ha, if_false, hat, hge, decide_True, if_true])
        rw [h]
        have hk : (52 - ((ilog2 n : Int) - (ilog2 d : Int))).toNat
            = 52 + (ilog2 d - ilog2 n) := by omega
        rw [hk]
      · calc d * 2 ^ 52 ≤ n * 2 ^ (ilog2 d - ilog2 n) * 2 ^ 52 := Nat.mul_le_mul_right _ hge
          _ = n * 2 ^ (52 + (ilog2 d - ilog2 n)) := by
              rw [mul_assoc, ← pow_add]
              congr 2
              omega
    · refine ⟨53 + (ilog2 d - ilog2 n), ?_, by omega, ?_⟩
      · have h := F64.round_of_exponent n d hn ((ilog2 n : Int) - (ilog2 d : Int) - 1)
          (by omega) (by simp only [ha, if_false, hat, hge, decide_False]; simp)
        rw [h]
        have hk : (52 - ((ilog2 n : Int) - (ilog2 d : Int) - 1)).toNat
            = 53 + (ilog2 d - ilog2 n) := by omega
        rw [hk]
      · have h1 : d * 2 ^ 52 ≤ 2 ^ (ilog2 d + 1) * 2 ^ 52 :=
          Nat.mul_le_mul_right _ (le_of_lt hB2)
        have h2 : 2 ^ (ilog2 d + 1) * 2 ^ 52
            = 2 ^ ilog2 n * 2 ^ (53 + (ilog2 d - ilog2 n)) := by
          rw [← pow_add, ← pow_add]
          congr 1
          omega
        calc d * 2 ^ 52 ≤ 2 ^ ilog2 n * 2 ^ (53 + (ilog2 d - ilog2 n)) := h2 ▸ h1
          _ ≤ n * 2 ^ (53 + (ilog2 d - ilog2 n)) := Nat.mul_le_mul_right _ hA1

/-- The arithmetic core of the accuracy of `%.2f`: two roundings to nearest, of a
normalised 53-bit quotient and of its hundredfold, stay within half a hundredth of the
exact quotient `b / 1000000` when `b` is below `2 ^ 53`. -/
theorem hundredths_bound (b n d P m c : Nat) (hd : 0 < d) (hb : b < 2 ^ 53)
    (hnd : n * 1000000 = b * d) (hlow : d * 2 ^ 52 ≤ n * P)
    (hm1 : 2 * (m * d) ≤ 2 * (n * P) + d) (hm2 : 2 * (n * P) ≤ 2 * (m * d) + d)
    (hc1 : 2 * (c * P) ≤ 2 * (m * 100) + P) (hc2 : 2 * (m * 100) ≤ 2 * (c * P) + P) :
    10000 * c ≤ b + 5000 ∧ b ≤ 10000 * c + 5000 := by
  have hu : n * P * 1000000 = b * (P * d) := by
    calc n * P * 1000000 = n * 1000000 * P := by ring
      _ = b * d * P := by rw [hnd]
      _ = b * (P * d) := by ring
  have hP : 500000 * d < P * d := by
    have h1 : d * 2 ^ 52 * 1000000 ≤ b * (P * d) := by
      rw [← hu]
      exact Nat.mul_le_mul_right _ hlow
    have h2 : b * (P * d) ≤ (2 ^ 53 - 1) * (P * d) := Nat.mul_le_mul_right _ (by omega)
    have h3 : d * 2 ^ 52 * 1000000 ≤ (2 ^ 53 - 1) * (P * d) := le_trans h1 h2
    by_contra hcon
    have h4 : P * d ≤ 500000 * d := by omega
    have h5 : (2 ^ 53 - 1) * (P * d) ≤ (2 ^ 53 - 1) * (500000 * d) :=
      Nat.mul_le_mul_left _ h4
    have h6 : d * 2 ^ 52 * 1000000 ≤ (2 ^ 53 - 1) * (500000 * d) := le_trans h3 h5
    have h7 : (2 ^ 53 - 1) * (500000 * d) = ((2 ^ 53 - 1) * 500000) * d := by ring
    have h8 : d * 2 ^ 52 * 1000000 = (2 ^ 52 * 1000000) * d := by ring
    rw [h7, h8] at h6
    have h9 := Nat.le_of_mul_le_mul_right h6 hd
    norm_num at h9
  have hx1 : 2 * (c * (P * d)) ≤ 200 * (m * d) + P * d := by
    have h := Nat.mul_le_mul_right d hc1
    calc 2 * (c * (P * d)) = 2 * (c * P) * d := by ring
      _ ≤ (2 * (m * 100) + P) * d := h
      _ = 200 * (m * d) + P * d := by ring
  have hx2 : 200 * (m * d) ≤ 2 * (c * (P * d)) + P * d := by
    have h := Nat.mul_le_mul_right d hc2
    calc 200 * (m * d) = 2 * (m * 100) * d := by ring
      _ ≤ (2 * (c * P) + P) * d := h
      _ = 2 * (c * (P * d)) + P * d := by ring
  constructor
  · by_contra hcon
    have h1 : b + 5001 ≤ 10000 * c := by omega
    have h2 : (b + 5001) * (P * d) ≤ 10000 * c * (P * d) := Nat.mul_le_mul_right _ h1
    have h3 : (b + 5001) * (P * d) = b * (P * d) + 5001 * (P * d) := by ring
    have h4 : 10000 * c * (P * d) = 10000 * (c * (P * d)) := by ring
    rw [h3, h4] at h2
    omega
  · by_contra hcon
    have h1 : 10000 * c + 5001 ≤ b := by omega
    have h2 : (10000 * c + 5001) * (P * d) ≤ b * (P * d) := Nat.mul_le_mul_right _ h1
    have h3 : (10000 * c + 5001) * (P * d) = 10000 * (c * (P * d)) + 5001 * (P * d) := by
      ring
    rw [h3] at h2
    omega

/-- The binary logarithm of one. -/
theorem ilog2_one : ilog2 1 = 0 := rfl

/-- Integers with 53 significant bits convert to binary64 exactly. -/
theorem F64.ofNat_exact (b : Nat) (hlo : 2 ^ 52 ≤ b) (hb : b < 2 ^ 53) :
    F64.ofNat b = ⟨b, 0⟩ := by
  obtain ⟨hA1, hA2⟩ := ilog2_spec b (by omega)
  have hA : ilog2 b = 52 := by
    have h1 : ilog2 b < 53 :=
      (Nat.pow_lt_pow_iff_right (by norm_num)).mp (lt_of_le_of_lt hA1 hb)
    have h2 : 52 < ilog2 b + 1 :=
      (Nat.pow_lt_pow_iff_right (by norm_num)).mp (lt_of_le_of_lt hlo hA2)
    omega
  have hb0 : b ≠ 0 := by omega
  have hle : 4503599627370496 ≤ b := by
    have : (2 : Nat) ^ 52 = 4503599627370496 := by norm_num
    omega
  simp [F64.ofNat, F64.round, hb0, hA, ilog2_one, hle, roundHalfEven_one]

/-- For a positive integer below `2 ^ 53` the conversion is exact, so the quotient computed
by the program is the rounding of the exact quotient `b / 1000000`. -/
theorem F64.ofNat_divNat (b : Nat) (hb0 : 0 < b) (hb : b < 2 ^ 53) :
    ∃ n d, 0 < n ∧ 0 < d ∧ n * 1000000 = b * d ∧
      (F64.ofNat b).divNat 1000000 = F64.round n d := by
  by_cases hlo : 2 ^ 52 ≤ b
  · refine ⟨b, 1000000, hb0, by norm_num, rfl, ?_⟩
    rw [F64.ofNat_exact b hlo hb]
    simp [F64.divNat]
  · obtain ⟨k, hk, hkpos, _⟩ := F64.round_small b 1 hb0 (by norm_num) (by omega)
    refine ⟨b * 2 ^ k, 1000000 * 2 ^ k, by positivity, by positivity, by ring, ?_⟩
    have hneg : ¬ ((0 : Int) ≤ -(k : Int)) := by omega
    have hk2 : (-(-(k : Int))).toNat = k := by omega
    unfold F64.ofNat
    rw [hk, roundHalfEven_one]
    unfold F64.divNat
    simp only [hneg, if_false, hk2]

/-- For every `b` below `2 ^ 53` the hundredths printed for `float64(b)/1000000` differ
from `b / 10000` by at most one half: the text is `b / 1000000` rounded to the nearest
hundredth. -/
theorem hundredths_accurate (b : Nat) (hb : b < 2 ^ 53) :
    10000 * ((F64.ofNat b).divNat 1000000).hundredths ≤ b + 5000 ∧
    b ≤ 10000 * ((F64.ofNat b).divNat 1000000).hundredths + 5000 := by
  by_cases hb0 : b = 0
  · subst hb0
    decide
  · obtain ⟨n, d, hn, hd, hnd, hq⟩ := F64.ofNat_divNat b (by omega) hb
    have hlt : n < d * 2 ^ 52 := by
      by_contra hcon
      have h1 : d * 2 ^ 52 * 1000000 ≤ n * 1000000 := Nat.mul_le_mul_right _ (by omega)
      have h2 : b * d ≤ (2 ^ 53 - 1) * d := Nat.mul_le_mul_right _ (by omega)
      have h3 : d * 2 ^ 52 * 1000000 = (2 ^ 52 * 1000000) * d := by ring
      rw [hnd, h3] at h1
      have h4 := Nat.le_of_mul_le_mul_right (le_trans h1 h2) hd
      norm_num at h4
    obtain ⟨k, hk, hkpos, hlow⟩ := F64.round_small n d hn hd hlt
    have hneg : ¬ ((0 : Int) ≤ -(k : Int)) := by omega
    have hk2 : (-(-(k : Int))).toNat = k := by omega
    have hc : ((F64.ofNat b).divNat 1000000).hundredths
        = roundHalfEven (roundHalfEven (n * 2 ^ k) d * 100) (2 ^ k) := by
      rw [hq, hk]
      unfold F64.hundredths
      simp only [hneg, if_false, hk2]
    rw [hc]
    obtain ⟨hm1, hm2⟩ := roundHalfEven_spec (n * 2 ^ k) d hd
    obtain ⟨hc1, hc2⟩ := roundHalfEven_spec (roundHalfEven (n * 2 ^ k) d * 100) (2 ^ k)
      (by positivity)
    exact hundredths_bound b n d (2 ^ k) _ _ hd hb hnd hlow hm1 hm2 hc1 hc2

/-! ### The poll -/

/-- The model of `%d` agrees with the decimal rendering of integers. -/
theorem fmtInt_eq_toString (i : Int) : fmtInt i = toString i := by
  cases i with
  | ofNat n =>
    have h : ¬ ((n : Int) < 0) := by omega
    simp only [fmtInt, Int.ofNat_eq_coe, h, if_false, Int.natAbs_ofNat]
    rfl
  | negSucc n =>
    have h : Int.negSucc n < 0 := Int.negSucc_lt_zero n
    simp only [fmtInt, h, if_true]
    rfl

/-- C8: one `update()` overwrites the two counters of the snapshot with exactly the values
the stats source reports and sets both texts from those values alone, whatever the snapshot
held before: the transfer text is the decimal count followed by ` files tranferred`, the
bytes text is the `%.2f` rendering of the binary64 quotient bytes / 1000000 followed by
` MB`; at 5,000,000 bytes it is `5.00 MB` and at 0 bytes it is `0.00 MB`; and for every
count from 0 up to `2 ^ 53` the two-decimal number shown is within half a hundredth of
bytes / 1000000. The log ring and the status text are left alone. -/
theorem update_overwrites (Stats : AccountingStats) (ps : progressStats) :
    (update Stats ps).bytes = Stats.GetBytes ∧
    (update Stats ps).transfers = Stats.GetTransfers ∧
    (update Stats ps).transferText = toString Stats.GetTransfers ++ " files tranferred" ∧
    (update Stats ps).bytesText =
      fmtF2 (decide (Stats.GetBytes < 0)) ((F64.ofNat Stats.GetBytes.natAbs).divNat 1000000)
        ++ " MB" ∧
    (update { Stats with GetBytes := 5000000 } ps).bytesText = "5.00 MB" ∧
    (update { Stats with GetBytes := 0 } ps).bytesText = "0.00 MB" ∧
    (0 ≤ Stats.GetBytes → Stats.GetBytes < 2 ^ 53 →
      ∃ c : Nat,
        (update Stats ps).bytesText =
          Nat.repr (c / 100) ++ "." ++ pad2 (c % 100) ++ " MB" ∧
        10000 * (c : Int) ≤ Stats.GetBytes + 5000 ∧
        Stats.GetBytes ≤ 10000 * (c : Int) + 5000) ∧
    (update Stats ps).logMessages = ps.logMessages ∧
    (update Stats ps).statusText = ps.statusText := by
  refine ⟨rfl, rfl, ?_, rfl, ?_, ?_, ?_, rfl, rfl⟩
  · show fmtInt Stats.GetTransfers ++ " files tranferred" = _
    rw [fmtInt_eq_toString]
  · show sprintfMB 5000000 = "5.00 MB"
    decide
  · show sprintfMB 0 = "0.00 MB"
    decide
  · intro h0 h53
    have hlt : Stats.GetBytes.natAbs < 2 ^ 53 := by omega
    obtain ⟨h1, h2⟩ := hundredths_accurate Stats.GetBytes.natAbs hlt
    refine ⟨((F64.ofNat Stats.GetBytes.natAbs).divNat 1000000).hundredths, ?_, by omega,
      by omega⟩
    show sprintfMB Stats.GetBytes = _
    have hneg : ¬ (Stats.GetBytes < 0) := by omega
    simp only [sprintfMB, fmtF2, hneg, decide_False, Bool.false_eq_true, if_false,
      String.empty_append]

/-- Witness of C8: at 1,234,567 bytes the text is `1.23 MB`, and 123 hundredths are within
half a hundredth of 1.234567. -/
theorem update_overwrites_witness :
    (0 : Int) ≤ 1234567 ∧ (1234567 : Int) < 2 ^ 53 ∧
    (update ⟨1234567, 3, false⟩ newProgressStats).bytesText = "1.23 MB" ∧
    ∃ c : Nat,
      (update ⟨1234567, 3, false⟩ newProgressStats).bytesText =
        Nat.repr (c / 100) ++ "." ++ pad2 (c % 100) ++ " MB" ∧
      10000 * (c : Int) ≤ 1234567 + 5000 ∧ (1234567 : Int) ≤ 10000 * (c : Int) + 5000 :=
  ⟨by decide, by decide, by decide,
    (update_overwrites ⟨1234567, 3, false⟩ newProgressStats).2.2.2.2.2.2.1
      (by decide) (by decide)⟩

/-! ### The guard -/

/-- C9 (evaluation of the code): `getStats` stores to the snapshot between `Lock` and
`Unlock`, but the installed log sink, which only calls `addLogMessage`, stores to the log
ring without ever taking the guard, on every call. -/
theorem addLogMessage_unguarded (ps : progressStats) (now : Time) (level text : String) :
    storesGuarded false getStatsAccesses = true ∧
    storesGuarded false (interceptLogPrintAccesses ps now level text) = false ∧
    Access.Lock ∉ interceptLogPrintAccesses ps now level text := by
  refine ⟨by decide, ?_, ?_⟩
  · simp [interceptLogPrintAccesses, addLogMessageAccesses, storesGuarded]
  · unfold interceptLogPrintAccesses addLogMessageAccesses
    split <;> simp

/-! ### The log line -/

/-- The layout `logTimeFormat` prints year-month-day hour:minute:second, zero padded. -/
theorem Format_logTimeFormat (t : Time) :
    t.Format logTimeFormat =
      zeroPad 4 t.Year ++ "-" ++ zeroPad 2 t.Month ++ "-" ++ zeroPad 2 t.Day ++ " " ++
        zeroPad 2 t.Hour ++ ":" ++ zeroPad 2 t.Minute ++ ":" ++ zeroPad 2 t.Second := by
  apply String.ext
  simp [Time.Format, logTimeFormat, formatLayout]

/-- C10 (counterexample): with interception installed, a call of the log sink at level
INFO with text `hello` appends a line with two blanks between `INFO` and the colon, not the
line `<timestamp> INFO: hello`. -/
theorem logLine_info_padded :
    (step (progressMonitor (σ := Unit) ⟨0, 0, false⟩ (LogSink.external ()) false)
      (Ev.jobLog ⟨2019, 3, 1, 12, 0, 5⟩ "INFO" "hello")).map (fun s => s.stats.logMessages) =
      some ["2019-03-01 12:00:05 INFO  : hello"] ∧
    (step (progressMonitor (σ := Unit) ⟨0, 0, false⟩ (LogSink.external ()) false)
      (Ev.jobLog ⟨2019, 3, 1, 12, 0, 5⟩ "INFO" "hello")).map (fun s => s.stats.logMessages) ≠
      some ["2019-03-01 12:00:05 INFO: hello"] := by
  decide

/-- C10 (amended): while interception is installed, one call of the global log sink
appends exactly one line to the log ring (dropping the oldest when the ring would exceed
four), and that line is the timestamp in the layout year-month-day hour:minute:second, one
blank, the level name padded on the right with blanks to at least six characters, a colon,
one blank and the message text; for a level name of six or more characters nothing stands
between the name and the colon. -/
theorem intercept_appends_padded_line {σ : Type} (s : Session σ) (now : Time)
    (level text : String) (h : s.LogPrint = LogSink.intercept) :
    ∃ s1, step s (Ev.jobLog now level text) = some s1 ∧
      s1.stats.logMessages =
        (if s.stats.logMessages.length + 1 > 4 then
          (s.stats.logMessages ++
            [now.Format logTimeFormat ++ " " ++
              (level ++ String.mk (List.replicate (6 - level.length) ' ')) ++ ": " ++
              text]).drop 1
        else
          s.stats.logMessages ++
            [now.Format logTimeFormat ++ " " ++
              (level ++ String.mk (List.replicate (6 - level.length) ' ')) ++ ": " ++
              text]) ∧
      (6 ≤ level.length →
        s1.stats.logMessages =
          (if s.stats.logMessages.length + 1 > 4 then
            (s.stats.logMessages ++
              [now.Format logTimeFormat ++ " " ++ level ++ ": " ++ text]).drop 1
          else
            s.stats.logMessages ++
              [now.Format logTimeFormat ++ " " ++ level ++ ": " ++ text])) ∧
      now.Format logTimeFormat =
        zeroPad 4 now.Year ++ "-" ++ zeroPad 2 now.Month ++ "-" ++ zeroPad 2 now.Day ++ " " ++
          zeroPad 2 now.Hour ++ ":" ++ zeroPad 2 now.Minute ++ ":" ++ zeroPad 2 now.Second := by
  refine ⟨{ s with stats := interceptLogPrint s.stats now level text }, ?_, ?_, ?_,
    Format_logTimeFormat now⟩
  · simp [step, h]
  · simp only [interceptLogPrint, addLogMessage, sprintfLogLine, padRight,
      List.length_append, List.length_singleton]
    split <;> rfl
  · intro h6
    have hz : 6 - level.length = 0 := by omega
    have hpad : level ++ String.mk (List.replicate (6 - level.length) ' ') = level := by
      rw [hz]
      show level ++ "" = level
      exact String.append_empty level
    simp only [interceptLogPrint, addLogMessage, sprintfLogLine, padRight,
      List.length_append, List.length_singleton, hpad]
    split <;> rfl

/-- Witness of C10 (amended): the first NOTICE line of a session with interception
installed. -/
theorem intercept_appends_padded_line_witness :
    (progressMonitor (σ := Unit) ⟨0, 0, false⟩ (LogSink.external ()) false).LogPrint =
      LogSink.intercept ∧
    ∃ s1, step (progressMonitor (σ := Unit) ⟨0, 0, false⟩ (LogSink.external ()) false)
        (Ev.jobLog ⟨2019, 3, 1, 12, 0, 5⟩ "NOTICE" "hello") = some s1 ∧
      s1.stats.logMessages = ["2019-03-01 12:00:05 NOTICE: hello"] := by
  refine ⟨rfl, ?_⟩
  obtain ⟨s1, h1, _, h3, _⟩ := intercept_appends_padded_line
    (progressMonitor (σ := Unit) ⟨0, 0, false⟩ (LogSink.external ()) false)
    ⟨2019, 3, 1, 12, 0, 5⟩ "NOTICE" "hello" rfl
  have hstamp : (⟨2019, 3, 1, 12, 0, 5⟩ : Time).Format logTimeFormat =
      "2019-03-01 12:00:05" := by
    decide
  have hring : (progressMonitor (σ := Unit) ⟨0, 0, false⟩
      (LogSink.external ()) false).stats.logMessages = [] := rfl
  have h4 := h3 (by decide)
  rw [hstamp, hring] at h4
  exact ⟨s1, h1, by rw [h4]; decide⟩

/-! ### Outcome and final read -/

/-- C2 (evaluation of the code): the job transfers 5,000,000 bytes without a fatal error and
the stop handle is called before any tick has polled. The session ends with the goroutine
returned, the stats source at 5,000,000 bytes and no fatal error, the bytes text `5.00 MB`
on screen, and the status text `All files up to date, nothing was downloaded...`: the
status was chosen from the snapshot before the final read. With one tick processed between
the transfer and the stop, the same session ends with `Download done...`. -/
theorem stop_status_from_stale_snapshot :
    (run (progressMonitor (σ := Unit) ⟨0, 0, false⟩ (LogSink.external ()) false)
      [Ev.goStart, Ev.jobProgress 5000000 1 false, Ev.stopHandle, Ev.selectStop]).map
      (fun s => (s.done, s.Stats.GetBytes, s.Stats.HadFatalError, s.stats.bytes,
        s.screen.bytes, s.screen.status)) =
      some (true, 5000000, false, 5000000, "5.00 MB", noopText) ∧
    (run (progressMonitor (σ := Unit) ⟨0, 0, false⟩ (LogSink.external ()) false)
      [Ev.goStart, Ev.jobProgress 5000000 1 false, Ev.timerFire, Ev.selectTick,
        Ev.stopHandle, Ev.selectStop]).map
      (fun s => (s.done, s.Stats.GetBytes, s.Stats.HadFatalError, s.stats.bytes,
        s.screen.bytes, s.screen.status)) =
      some (true, 5000000, false, 5000000, "5.00 MB", successText) := by
  constructor <;> decide

/-! ### Schedules: basic facts -/

/-- Running a concatenated schedule is running its parts in sequence. -/
theorem run_append {σ : Type} (evs1 evs2 : List Ev) :
    ∀ s : Session σ, run s (evs1 ++ evs2) = (run s evs1).bind (fun s1 => run s1 evs2) := by
  induction evs1 with
  | nil => intro s; rfl
  | cons e rest ih =>
    intro s
    simp only [List.cons_append, run]
    cases step s e with
    | none => rfl
    | some s1 => exact ih s1

/-- No event changes the saved sink, and once the goroutine has returned no event changes
the global sink. -/
theorem step_sink {σ : Type} (s s1 : Session σ) (e : Ev) (h : step s e = some s1) :
    s1.oldLogPrint = s.oldLogPrint ∧
    (s1.done = true → s.done = false → s1.LogPrint = s.oldLogPrint) ∧
    (s.done = true → s1.done = true ∧ s1.LogPrint = s.LogPrint) := by
  cases e <;> simp only [step] at h
  case jobProgress b t f =>
    cases h
    exact ⟨rfl, fun h1 h2 => by simp_all, fun h1 => ⟨h1, rfl⟩⟩
  case jobLog now level text =>
    split at h <;> cases h <;>
      exact ⟨rfl, fun h1 h2 => by simp_all, fun h1 => ⟨h1, rfl⟩⟩
  case goStart =>
    split at h
    · cases h
    · cases h
      exact ⟨rfl, fun h1 h2 => by simp_all, fun h1 => ⟨h1, rfl⟩⟩
  case timerFire =>
    split at h
    · cases h
      exact ⟨rfl, fun h1 h2 => by simp_all, fun h1 => ⟨h1, rfl⟩⟩
    · cases h
  case selectTick =>
    split at h
    · rename_i hc
      cases h
      simp only [Bool.and_eq_true, Bool.not_eq_true'] at hc
      exact ⟨rfl, fun h1 h2 => by simp_all [poll, flush],
        fun h1 => by simp_all [poll, flush]⟩
    · cases h
  case selectStop =>
    split at h
    · rename_i hc
      cases h
      simp only [Bool.and_eq_true, Bool.not_eq_true'] at hc
      exact ⟨rfl, fun _ _ => rfl, fun h1 => by simp_all [poll, flush]⟩
    · cases h
  case stopHandle =>
    split at h
    · cases h
    · cases h
      exact ⟨rfl, fun h1 h2 => by simp_all, fun h1 => ⟨h1, rfl⟩⟩

/-- Along any schedule the saved sink stays what it was, and a session whose goroutine has
returned has the saved sink installed, provided this held at the start. -/
theorem run_sink {σ : Type} (evs : List Ev) :
    ∀ s s1 : Session σ, run s evs = some s1 →
      (s.done = true → s.LogPrint = s.oldLogPrint) →
      s1.oldLogPrint = s.oldLogPrint ∧ (s1.done = true → s1.LogPrint = s.oldLogPrint) := by
  induction evs with
  | nil =>
    intro s s1 h hinv
    simp only [run, Option.some.injEq] at h
    subst h
    exact ⟨rfl, hinv⟩
  | cons e rest ih =>
    intro s s1 h hinv
    simp only [run] at h
    cases hstep : step s e with
    | none => rw [hstep] at h; cases h
    | some s' =>
      rw [hstep] at h
      obtain ⟨hold, hnew, hkeep⟩ := step_sink s s' e hstep
      have hinv' : s'.done = true → s'.LogPrint = s'.oldLogPrint := by
        intro hd
        rw [hold]
        cases hsd : s.done with
        | false => exact hnew hd hsd
        | true => rw [(hkeep hsd).2]; exact hinv hsd
      obtain ⟨h1, h2⟩ := ih s' s1 h hinv'
      exact ⟨h1.trans hold, fun hd => (h2 hd).trans hold⟩

/-- C5: for every initial value of the global log sink, either answer of the redirected
query, and every schedule of the session, once the session has been started and stopped
(the goroutine has returned, so the join of the stop handle is over) the global log sink is
identical to its value before the session started. -/
theorem logSink_restored {σ : Type} (Stats : AccountingStats) (LogPrint : LogSink σ)
    (Redirected : Bool) (evs : List Ev) (s : Session σ)
    (hrun : run (progressMonitor Stats LogPrint Redirected) evs = some s)
    (hdone : s.done = true) :
    s.LogPrint = LogPrint :=
  (run_sink evs (progressMonitor Stats LogPrint Redirected) s hrun
    (fun hd => by simp [progressMonitor] at hd)).2 hdone

/-- Witness of C5: a session with interception installed, one tick, one intercepted log
line, then the stop; the sink that was installed before the session is back. -/
theorem logSink_restored_witness :
    ∃ s : Session String,
      run (progressMonitor ⟨0, 0, false⟩ (LogSink.external "stderr") false)
        [Ev.goStart, Ev.timerFire, Ev.selectTick, Ev.jobLog ⟨2019, 3, 1, 12, 0, 5⟩ "INFO" "x",
          Ev.stopHandle, Ev.selectStop] = some s ∧
      s.done = true ∧ s.LogPrint = LogSink.external "stderr" := by
  cases hrun : run (progressMonitor ⟨0, 0, false⟩ (LogSink.external "stderr") false)
      [Ev.goStart, Ev.timerFire, Ev.selectTick, Ev.jobLog ⟨2019, 3, 1, 12, 0, 5⟩ "INFO" "x",
        Ev.stopHandle, Ev.selectStop] with
  | none => exact absurd hrun (by decide)
  | some s =>
    have hdone : s.done = true := by
      have : (run (progressMonitor ⟨0, 0, false⟩ (LogSink.external "stderr") false)
        [Ev.goStart, Ev.timerFire, Ev.selectTick,
          Ev.jobLog ⟨2019, 3, 1, 12, 0, 5⟩ "INFO" "x",
          Ev.stopHandle, Ev.selectStop]).map (fun s => s.done) = some true := by decide
      rw [hrun] at this
      simpa using this
    exact ⟨s, rfl, hdone, logSink_restored _ _ _ _ s hrun hdone⟩

/-! ### The final read -/

/-- Appending a log line leaves the two counters alone. -/
theorem addLogMessage_counters (ps : progressStats) (msg : String) :
    (addLogMessage ps msg).bytes = ps.bytes ∧
    (addLogMessage ps msg).transfers = ps.transfers := by
  unfold addLogMessage
  by_cases h : (ps.logMessages ++ [msg]).length > 4
  · simp only [h, if_true, and_self]
  · simp only [h, if_false, and_self]

/-- Writing the status leaves the two counters alone. -/
theorem stopStatus_counters (fatal : Bool) (ps : progressStats) :
    (stopStatus fatal ps).bytes = ps.bytes ∧
    (stopStatus fatal ps).transfers = ps.transfers :=
  ⟨rfl, rfl⟩

/-- What one event does to the read history, the counters and the goroutine: after the
goroutine has returned nothing changes them; the history only grows; the event on which the
goroutine returns appends the read whose values the counters hold; and a goroutine that has
returned implies a closed stop channel. -/
theorem step_reads {σ : Type} (s s1 : Session σ) (e : Ev) (h : step s e = some s1) :
    (s.done = true → s1.done = true ∧ s1.reads = s.reads ∧
      s1.stats.bytes = s.stats.bytes ∧ s1.stats.transfers = s.stats.transfers) ∧
    (∃ new, s1.reads = s.reads ++ new) ∧
    (s.done = false → s1.done = true →
      s1.reads = s.reads ++ [(s1.stats.bytes, s1.stats.transfers)]) ∧
    ((s.done = true → s.stopClosed = true) → (s1.done = true → s1.stopClosed = true)) := by
  cases e <;> simp only [step] at h
  case jobProgress b t f =>
    cases h
    exact ⟨fun h1 => ⟨h1, rfl, rfl, rfl⟩, ⟨[], by simp⟩, fun h1 h2 => by simp_all,
      fun hi => hi⟩
  case jobLog now level text =>
    split at h
    · cases h
      exact ⟨fun h1 => ⟨h1, rfl, (addLogMessage_counters _ _).1,
        (addLogMessage_counters _ _).2⟩, ⟨[], by simp⟩, fun h1 h2 => by simp_all,
        fun hi => hi⟩
    · cases h
      exact ⟨fun h1 => ⟨h1, rfl, rfl, rfl⟩, ⟨[], by simp⟩, fun h1 h2 => by simp_all,
        fun hi => hi⟩
  case goStart =>
    split at h
    · cases h
    · cases h
      exact ⟨fun h1 => ⟨h1, rfl, rfl, rfl⟩, ⟨[], by simp⟩, fun h1 h2 => by simp_all,
        fun hi => hi⟩
  case timerFire =>
    split at h
    · cases h
      exact ⟨fun h1 => ⟨h1, rfl, rfl, rfl⟩, ⟨[], by simp⟩, fun h1 h2 => by simp_all,
        fun hi => hi⟩
    · cases h
  case selectTick =>
    split at h
    · rename_i hc
      cases h
      simp only [Bool.and_eq_true, Bool.not_eq_true'] at hc
      exact ⟨fun h1 => by simp_all, ⟨[(s.Stats.GetBytes, s.Stats.GetTransfers)], rfl⟩,
        fun h1 h2 => by simp_all [poll, flush], fun hi => hi⟩
    · cases h
  case selectStop =>
    split at h
    · rename_i hc
      cases h
      simp only [Bool.and_eq_true, Bool.not_eq_true'] at hc
      exact ⟨fun h1 => by simp_all, ⟨[(s.Stats.GetBytes, s.Stats.GetTransfers)], rfl⟩,
        fun _ _ => rfl, fun _ _ => hc.2⟩
    · cases h
  case stopHandle =>
    split at h
    · cases h
    · cases h
      exact ⟨fun h1 => ⟨h1, rfl, (stopStatus_counters _ _).1, (stopStatus_counters _ _).2⟩,
        ⟨[], by simp⟩, fun h1 h2 => by simp_all, fun _ _ => rfl⟩

/-- After the goroutine has returned, no schedule performs another read or changes the
counters. -/
theorem run_after_done {σ : Type} (evs : List Ev) :
    ∀ s s1 : Session σ, run s evs = some s1 → s.done = true →
      s1.done = true ∧ s1.reads = s.reads ∧
      s1.stats.bytes = s.stats.bytes ∧ s1.stats.transfers = s.stats.transfers := by
  induction evs with
  | nil =>
    intro s s1 h hd
    simp only [run, Option.some.injEq] at h
    subst h
    exact ⟨hd, rfl, rfl, rfl⟩
  | cons e rest ih =>
    intro s s1 h hd
    simp only [run] at h
    cases hstep : step s e with
    | none => rw [hstep] at h; cases h
    | some s' =>
      rw [hstep] at h
      obtain ⟨hd', hr, hb, ht⟩ := (step_reads s s' e hstep).1 hd
      obtain ⟨h1, h2, h3, h4⟩ := ih s' s1 h hd'
      exact ⟨h1, h2.trans hr, h3.trans hb, h4.trans ht⟩

/-- A goroutine that has returned implies a closed stop channel, along every schedule. -/
theorem run_done_closed {σ : Type} (evs : List Ev) :
    ∀ s s1 : Session σ, run s evs = some s1 →
      (s.done = true → s.stopClosed = true) → (s1.done = true → s1.stopClosed = true) := by
  induction evs with
  | nil =>
    intro s s1 h hinv
    simp only [run, Option.some.injEq] at h
    subst h
    exact hinv
  | cons e rest ih =>
    intro s s1 h hinv
    simp only [run] at h
    cases hstep : step s e with
    | none => rw [hstep] at h; cases h
    | some s' =>
      rw [hstep] at h
      exact ih s' s1 h ((step_reads s s' e hstep).2.2.2 hinv)

/-- From a state whose goroutine is alive to a state whose goroutine has returned, the
history grows by at least one read, and the last read is the one the counters hold. -/
theorem run_to_done {σ : Type} (evs : List Ev) :
    ∀ s s1 : Session σ, run s evs = some s1 → s.done = false → s1.done = true →
      ∃ new, s1.reads = s.reads ++ new ∧ new ≠ [] ∧
        new.getLast? = some (s1.stats.bytes, s1.stats.transfers) := by
  induction evs with
  | nil =>
    intro s s1 h hd hd1
    simp only [run, Option.some.injEq] at h
    subst h
    rw [hd] at hd1
    cases hd1
  | cons e rest ih =>
    intro s s1 h hd hd1
    simp only [run] at h
    cases hstep : step s e with
    | none => rw [hstep] at h; cases h
    | some s' =>
      rw [hstep] at h
      obtain ⟨_, ⟨n0, hn0⟩, hexit, _⟩ := step_reads s s' e hstep
      cases hd' : s'.done with
      | false =>
        obtain ⟨new, hnew, hne, hlast⟩ := ih s' s1 h hd' hd1
        refine ⟨n0 ++ new, by rw [hnew, hn0, List.append_assoc], by simp [hne], ?_⟩
        rw [List.getLast?_append_of_ne_nil _ hne]
        exact hlast
      | true =>
        obtain ⟨_, hr, hb, ht⟩ := run_after_done rest s' s1 h hd'
        refine ⟨[(s'.stats.bytes, s'.stats.transfers)], ?_, by simp, ?_⟩
        · rw [hr]; exact hexit hd hd'
        · simp [hb, ht]

/-- A closed stop channel stays closed. -/
theorem run_closed {σ : Type} (evs : List Ev) :
    ∀ s s1 : Session σ, run s evs = some s1 → s.stopClosed = true → s1.stopClosed = true := by
  induction evs with
  | nil =>
    intro s s1 h hc
    simp only [run, Option.some.injEq] at h
    subst h
    exact hc
  | cons e rest ih =>
    intro s s1 h hc
    simp only [run] at h
    cases hstep : step s e with
    | none => rw [hstep] at h; cases h
    | some s' =>
      rw [hstep] at h
      refine ih s' s1 h ?_
      cases e <;> simp only [step] at hstep
      case jobProgress b t f => cases hstep; exact hc
      case jobLog now level text => split at hstep <;> cases hstep <;> exact hc
      case goStart =>
        split at hstep
        · cases hstep
        · cases hstep; exact hc
      case timerFire =>
        split at hstep
        · cases hstep; exact hc
        · cases hstep
      case selectTick =>
        split at hstep
        · cases hstep; exact hc
        · cases hstep
      case selectStop =>
        split at hstep
        · cases hstep; exact hc
        · cases hstep
      case stopHandle =>
        split at hstep
        · cases hstep
        · rename_i hopen
          exact absurd hc hopen

/-- With the stop channel closed and the goroutine alive, the goroutine can return: the stop
case of the `select` is ready as soon as the goroutine has started. -/
theorem exit_enabled {σ : Type} (s : Session σ) (hc : s.stopClosed = true)
    (hd : s.done = false) :
    ∃ s2, run s (if s.started then [Ev.selectStop] else [Ev.goStart, Ev.selectStop]) = some s2 ∧
      s2.done = true := by
  cases hs : s.started with
  | true => simp [run, step, hs, hd, hc]
  | false => simp [run, step, hs, hd, hc]

/-- What one event does to the number of reads: each ticker case and the stop case is taken
by a goroutine that is alive and performs exactly one read, the stop case being the one on
which the goroutine returns; no other event reads or ends the goroutine. -/
theorem step_kind {σ : Type} (s s1 : Session σ) (e : Ev) (h : step s e = some s1) :
    (e = Ev.selectTick →
      s.done = false ∧ s1.done = false ∧ s1.reads.length = s.reads.length + 1) ∧
    (e = Ev.selectStop →
      s.done = false ∧ s1.done = true ∧ s1.reads.length = s.reads.length + 1) ∧
    (e ≠ Ev.selectTick → e ≠ Ev.selectStop → s1.done = s.done ∧ s1.reads = s.reads) := by
  cases e <;> simp only [step] at h
  case jobProgress b t f =>
    cases h
    exact ⟨(fun he => by cases he), (fun he => by cases he), fun _ _ => ⟨rfl, rfl⟩⟩
  case jobLog now level text =>
    split at h <;> cases h <;>
      exact ⟨(fun he => by cases he), (fun he => by cases he), fun _ _ => ⟨rfl, rfl⟩⟩
  case goStart =>
    split at h
    · cases h
    · cases h
      exact ⟨(fun he => by cases he), (fun he => by cases he), fun _ _ => ⟨rfl, rfl⟩⟩
  case timerFire =>
    split at h
    · cases h
      exact ⟨(fun he => by cases he), (fun he => by cases he), fun _ _ => ⟨rfl, rfl⟩⟩
    · cases h
  case selectTick =>
    split at h
    · rename_i hc
      cases h
      simp only [Bool.and_eq_true, Bool.not_eq_true'] at hc
      exact ⟨fun _ => ⟨hc.1.2, hc.1.2, by simp [poll, flush]⟩, (fun he => by cases he),
        fun hne _ => absurd rfl hne⟩
    · cases h
  case selectStop =>
    split at h
    · rename_i hc
      cases h
      simp only [Bool.and_eq_true, Bool.not_eq_true'] at hc
      exact ⟨(fun he => by cases he), fun _ => ⟨hc.1.2, rfl, by simp [poll, flush]⟩,
        fun _ hne => absurd rfl hne⟩
    · cases h
  case stopHandle =>
    split at h
    · cases h
    · cases h
      exact ⟨(fun he => by cases he), (fun he => by cases he), fun _ _ => ⟨rfl, rfl⟩⟩

/-- After the goroutine has returned, a schedule contains neither a ticker case nor a stop
case. -/
theorem run_done_no_select {σ : Type} (evs : List Ev) :
    ∀ s s1 : Session σ, run s evs = some s1 → s.done = true →
      evs.count Ev.selectTick = 0 ∧ evs.count Ev.selectStop = 0 := by
  induction evs with
  | nil => intro s s1 _ _; exact ⟨rfl, rfl⟩
  | cons e rest ih =>
    intro s s1 h hd
    simp only [run] at h
    cases hstep : step s e with
    | none => rw [hstep] at h; cases h
    | some s' =>
      rw [hstep] at h
      obtain ⟨htick, hstop, hother⟩ := step_kind s s' e hstep
      have hne1 : e ≠ Ev.selectTick := by
        intro he
        have := (htick he).1
        rw [hd] at this
        cases this
      have hne2 : e ≠ Ev.selectStop := by
        intro he
        have := (hstop he).1
        rw [hd] at this
        cases this
      have hd' : s'.done = true := by rw [(hother hne1 hne2).1]; exact hd
      obtain ⟨h1, h2⟩ := ih s' s1 h hd'
      exact ⟨by rw [List.count_cons_of_ne hne1.symm]; exact h1,
        by rw [List.count_cons_of_ne hne2.symm]; exact h2⟩

/-- From a state whose goroutine is alive to a state whose goroutine has returned, the
schedule takes the stop case exactly once, and the number of reads performed is the number
of ticker cases taken plus one. -/
theorem run_exit_count {σ : Type} (evs : List Ev) :
    ∀ s s1 : Session σ, run s evs = some s1 → s.done = false → s1.done = true →
      s1.reads.length = s.reads.length + evs.count Ev.selectTick + 1 ∧
      evs.count Ev.selectStop = 1 := by
  induction evs with
  | nil =>
    intro s s1 h hd hd1
    simp only [run, Option.some.injEq] at h
    subst h
    rw [hd] at hd1
    cases hd1
  | cons e rest ih =>
    intro s s1 h hd hd1
    simp only [run] at h
    cases hstep : step s e with
    | none => rw [hstep] at h; cases h
    | some s' =>
      rw [hstep] at h
      obtain ⟨htick, hstop, hother⟩ := step_kind s s' e hstep
      by_cases he1 : e = Ev.selectTick
      · obtain ⟨_, hd', hlen⟩ := htick he1
        obtain ⟨h1, h2⟩ := ih s' s1 h hd' hd1
        subst he1
        have hne : Ev.selectStop ≠ Ev.selectTick := by decide
        rw [List.count_cons_self, List.count_cons_of_ne hne]
        exact ⟨by omega, h2⟩
      · by_cases he2 : e = Ev.selectStop
        · obtain ⟨_, hd', hlen⟩ := hstop he2
          obtain ⟨h1, h2⟩ := run_done_no_select rest s' s1 h hd'
          have hr := (run_after_done rest s' s1 h hd').2.1
          subst he2
          have hne : Ev.selectTick ≠ Ev.selectStop := by decide
          rw [List.count_cons_self, List.count_cons_of_ne hne, hr]
          exact ⟨by omega, by omega⟩
        · obtain ⟨hd', hr⟩ := hother he1 he2
          obtain ⟨h1, h2⟩ := ih s' s1 h (by rw [hd']; exact hd) hd1
          rw [List.count_cons_of_ne (Ne.symm he1), List.count_cons_of_ne (Ne.symm he2)]
          exact ⟨by rw [h1, hr], h2⟩

/-- C4 (counterexample): a tick is pending when the stop signal is issued and the `select`
takes the ticker case first. Before the signal the loop has read nothing; between the signal
and its exit it reads twice, not once. -/
theorem stop_two_more_reads :
    (run (progressMonitor (σ := Unit) ⟨100, 1, false⟩ (LogSink.external ()) false)
      [Ev.goStart, Ev.timerFire]).map (fun s => (s.done, s.reads)) = some (false, []) ∧
    (run (progressMonitor (σ := Unit) ⟨100, 1, false⟩ (LogSink.external ()) false)
      ([Ev.goStart, Ev.timerFire] ++ Ev.stopHandle :: [Ev.selectTick, Ev.selectStop])).map
      (fun s => (s.done, s.reads)) = some (true, [(100, 1), (100, 1)]) := by
  decide

/-- C4 (amended): for every session, every schedule `before` run so far (any number of
ticks, also none) and every schedule `after` the stop signal that ends with the goroutine
returned, the `select` takes its stop case exactly once after the signal, and the reads of
the stats source performed after the signal are exactly one for every ticker case taken
after the signal plus one for the stop case: at least one, and exactly one when no ticker
case is taken after the signal. The last read gives the values the snapshot counters hold
when the join returns; whatever happens afterwards, no further read is performed and the
counters keep those values; and at every moment between the signal and its return the
goroutine is able to return (its stop case is ready), so the join does return. -/
theorem stop_forces_final_read {σ : Type} (Stats : AccountingStats) (LogPrint : LogSink σ)
    (Redirected : Bool) (before after : List Ev) (s s2 : Session σ)
    (hbefore : run (progressMonitor Stats LogPrint Redirected) before = some s)
    (hafter : run (progressMonitor Stats LogPrint Redirected)
      (before ++ Ev.stopHandle :: after) = some s2)
    (hdone : s2.done = true) :
    (∃ new, s2.reads = s.reads ++ new ∧ 1 ≤ new.length ∧
      new.getLast? = some (s2.stats.bytes, s2.stats.transfers) ∧
      new.length = after.count Ev.selectTick + 1) ∧
    after.count Ev.selectStop = 1 ∧
    (after.count Ev.selectTick = 0 → s2.reads.length = s.reads.length + 1) ∧
    (∀ (later : List Ev) (s3 : Session σ), run s2 later = some s3 →
      s3.reads = s2.reads ∧ s3.stats.bytes = s2.stats.bytes ∧
      s3.stats.transfers = s2.stats.transfers) ∧
    (∀ (mid : List Ev) (s1 : Session σ),
      run (progressMonitor Stats LogPrint Redirected) (before ++ Ev.stopHandle :: mid) =
        some s1 →
      s1.done = false →
      ∃ s3, run s1 (if s1.started then [Ev.selectStop] else [Ev.goStart, Ev.selectStop]) =
          some s3 ∧ s3.done = true) := by
  have hclosed := run_done_closed before _ s hbefore (fun hd => by simp [progressMonitor] at hd)
  have hcount : ∃ new, (s2.reads = s.reads ++ new ∧ 1 ≤ new.length ∧
      new.getLast? = some (s2.stats.bytes, s2.stats.transfers) ∧
      new.length = after.count Ev.selectTick + 1) ∧
      after.count Ev.selectStop = 1 := by
    rw [run_append, hbefore] at hafter
    simp only [Option.bind, run] at hafter
    cases hstep : step s Ev.stopHandle with
    | none => rw [hstep] at hafter; cases hafter
    | some s1 =>
      rw [hstep] at hafter
      have hopen : s.stopClosed = false := by
        cases hc : s.stopClosed with
        | false => rfl
        | true => simp [step, hc] at hstep
      have hsd : s.done = false := by
        cases hd : s.done with
        | false => rfl
        | true => rw [hclosed hd] at hopen; cases hopen
      have hs1 : s1.done = false ∧ s1.reads = s.reads := by
        simp only [step, hopen] at hstep
        cases hstep
        exact ⟨hsd, rfl⟩
      obtain ⟨new, hnew, hne, hlast⟩ := run_to_done after s1 s2 hafter hs1.1 hdone
      obtain ⟨hlen, hstops⟩ := run_exit_count after s1 s2 hafter hs1.1 hdone
      have hnewlen : new.length = after.count Ev.selectTick + 1 := by
        rw [hnew, List.length_append] at hlen
        omega
      exact ⟨new, ⟨by rw [hnew, hs1.2], by omega, hlast, hnewlen⟩, hstops⟩
  obtain ⟨new, ⟨hreads, hpos, hlast, hnewlen⟩, hstops⟩ := hcount
  refine ⟨⟨new, hreads, hpos, hlast, hnewlen⟩, hstops, ?_, ?_, ?_⟩
  · intro hnone
    rw [hreads, List.length_append, hnewlen, hnone]
  · intro later s3 hlater
    exact (run_after_done later s2 s3 hlater hdone).2
  · intro mid s1 hmid hd1
    rw [run_append, hbefore] at hmid
    simp only [Option.bind, run] at hmid
    cases hstep : step s Ev.stopHandle with
    | none => rw [hstep] at hmid; cases hmid
    | some s0 =>
      rw [hstep] at hmid
      have hc0 : s0.stopClosed = true := by
        simp only [step] at hstep
        split at hstep
        · cases hstep
        · cases hstep; rfl
      exact exit_enabled s1 (run_closed mid s0 s1 hmid hc0) hd1

/-- Witness of C4 (amended): two ticks are processed, the job reports more progress, a third
tick fires, then the stop handle runs and the `select` takes the pending ticker case before
the stop case: two reads follow the signal, the second on the stop case. -/
theorem stop_forces_final_read_witness :
    ∃ s s2 : Session Unit,
      run (progressMonitor ⟨0, 0, false⟩ (LogSink.external ()) false)
        [Ev.goStart, Ev.timerFire, Ev.selectTick, Ev.jobProgress 2500000 1 false,
          Ev.timerFire, Ev.selectTick, Ev.jobProgress 5000000 2 false, Ev.timerFire] =
        some s ∧
      run (progressMonitor ⟨0, 0, false⟩ (LogSink.external ()) false)
        ([Ev.goStart, Ev.timerFire, Ev.selectTick, Ev.jobProgress 2500000 1 false,
          Ev.timerFire, Ev.selectTick, Ev.jobProgress 5000000 2 false, Ev.timerFire] ++
          Ev.stopHandle :: [Ev.selectTick, Ev.selectStop]) = some s2 ∧
      s2.done = true ∧
      ∃ new, s2.reads = s.reads ++ new ∧ 1 ≤ new.length ∧
        new.getLast? = some (s2.stats.bytes, s2.stats.transfers) ∧
        new.length = [Ev.selectTick, Ev.selectStop].count Ev.selectTick + 1 := by
  cases h1 : run (progressMonitor (σ := Unit) ⟨0, 0, false⟩ (LogSink.external ()) false)
      [Ev.goStart, Ev.timerFire, Ev.selectTick, Ev.jobProgress 2500000 1 false,
        Ev.timerFire, Ev.selectTick, Ev.jobProgress 5000000 2 false, Ev.timerFire] with
  | none => exact absurd h1 (by decide)
  | some s =>
    cases h2 : run (progressMonitor (σ := Unit) ⟨0, 0, false⟩ (LogSink.external ()) false)
        ([Ev.goStart, Ev.timerFire, Ev.selectTick, Ev.jobProgress 2500000 1 false,
          Ev.timerFire, Ev.selectTick, Ev.jobProgress 5000000 2 false, Ev.timerFire] ++
          Ev.stopHandle :: [Ev.selectTick, Ev.selectStop]) with
    | none => exact absurd h2 (by decide)
    | some s2 =>
      have hdone : s2.done = true := by
        have : (run (progressMonitor (σ := Unit) ⟨0, 0, false⟩ (LogSink.external ()) false)
          ([Ev.goStart, Ev.timerFire, Ev.selectTick, Ev.jobProgress 2500000 1 false,
            Ev.timerFire, Ev.selectTick, Ev.jobProgress 5000000 2 false, Ev.timerFire] ++
            Ev.stopHandle :: [Ev.selectTick, Ev.selectStop])).map (fun s => s.done) =
            some true := by
          decide
        rw [h2] at this
        simpa using this
      exact ⟨s, s2, rfl, rfl, hdone,
        (stop_forces_final_read _ _ _ _ _ s s2 h1 h2 hdone).1⟩

end Fisymup
